import Mathlib

/-!
Verification of the test-filestructure linter's matching/validation engine.

This file is a shallow embedding of the core analyzer found in
`src/analyzer.ts` (class `Analyzer`), the implementation wired to the CLI
entry point `src/index.ts`.  The embedding conventions are:

* A filesystem path is modelled as `FsPath := List String`: the list of path
  segments of a normalized absolute path, as produced by `path.resolve`
  (e.g. `/r/src/App/UserService.cs` is `["r", "src", "App", "UserService.cs"]`).
  Well-formed segments (`wfPath`) are nonempty and contain neither the
  separator `/` nor `,`; this is the invariant `path.resolve` guarantees for
  real file paths, and string-level operations of the source (`includes`,
  `endsWith`, `split`, `join`, `normalize`, string equality `===`) are
  translated to the corresponding segment-list operations under it.
* Node `path` helpers (`basename`, `extname`, `relative`, `dirname`, `join`)
  are reproduced on this representation, including their corner cases
  (`dirname` of a single segment is `"."`, `basename(name, ext)` only strips
  a proper suffix, `extname` takes the last dot not in first position,
  `relative` inserts `".."` segments for paths outside the base).
* JavaScript string operations keep their exact semantics:
  `String.replace(pat, '')` removes only the first occurrence
  (`replaceFirst`), `replace(new RegExp(suffix + "$"), '')` removes one
  trailing occurrence (`stripTrailing`), `toLowerCase` maps `Char.toLower`.
* The error/result records use `Option String` for the optional path fields,
  holding rendered path strings exactly as the source stores them; `none`
  models an absent field.
* Directory enumeration (`findTestFiles` / `findSourceFiles`) is external
  I/O and out of scope per the spec; `analyzeProject` is embedded as the
  pure function of `(sourceFiles, testFiles, options)` that the source
  computes after enumeration (lines 44-220 of `src/analyzer.ts`).
  All embedded functions are total computable Lean definitions, which
  witnesses the purity/totality/no-filesystem-access parts of the spec.
-/

/-- FsPath as the segment list of a normalized absolute path. -/
abbrev FsPath := List String

/-- A well-formed path segment: nonempty, and free of the path separator and
of commas (real file-name segments produced by `path.resolve`). -/
def wfSeg (s : String) : Prop :=
  s ≠ "" ∧ ∀ c ∈ s.data, c ≠ '/' ∧ c ≠ ','

instance (s : String) : Decidable (wfSeg s) := by
  unfold wfSeg; infer_instance

/-- A well-formed path: nonempty list of well-formed segments. -/
def wfPath (p : FsPath) : Prop := p ≠ [] ∧ ∀ s ∈ p, wfSeg s

instance (p : FsPath) : Decidable (wfPath p) := by
  unfold wfPath; infer_instance

/-- Render a path as its absolute string form, `/seg1/seg2/...`, at the
character-list level. -/
def renderSegs : List (List Char) → List Char
  | [] => []
  | s :: rest => '/' :: (s ++ renderSegs rest)

/-- Render a path as the absolute path string Node would print. -/
def renderPath (p : FsPath) : String := ⟨renderSegs (p.map String.data)⟩

/-- JavaScript `Array.join(path.sep)` for a list of segments. -/
def sepJoin (l : List String) : String :=
  match l with
  | [] => ""
  | s :: rest => ⟨s.data ++ renderSegs (rest.map String.data)⟩

/-- JavaScript `Array.join(', ')` at the character-list level. -/
def commaJoinData : List (List Char) → List Char
  | [] => []
  | [s] => s
  | s :: rest => s ++ ',' :: ' ' :: commaJoinData rest

/-- JavaScript `Array.join(', ')`. -/
def commaJoin (l : List String) : String := ⟨commaJoinData (l.map String.data)⟩

/-- JavaScript `String.toLowerCase` (ASCII). -/
def lowerStr (s : String) : String := ⟨s.data.map Char.toLower⟩

/-- JavaScript `str.replace(new RegExp(suffix + "$"), '')`: removes one
trailing occurrence of `suffix` when present (for a metacharacter-free
suffix as in the analyzer's configuration). -/
def stripTrailing (s suffix : String) : String :=
  if suffix.data.isSuffixOf s.data then
    ⟨s.data.take (s.data.length - suffix.data.length)⟩
  else s

/-- Remove the first occurrence of `pat` from a character list; identity when
`pat` does not occur or is empty.  This is JavaScript
`str.replace(pat, '')` with a plain-string pattern. -/
def removeFirstOcc (pat : List Char) : List Char → List Char
  | [] => []
  | c :: rest =>
    if !pat.isEmpty && pat.isPrefixOf (c :: rest) then (c :: rest).drop pat.length
    else c :: removeFirstOcc pat rest

/-- JavaScript `s.replace(pat, '')` for a plain-string pattern. -/
def replaceFirst (s pat : String) : String := ⟨removeFirstOcc pat.data s.data⟩

/-- On a reversed file name, the characters up to and including the first
dot (hence, of the original name, the last dot and everything after it). -/
def extRev : List Char → Option (List Char)
  | [] => none
  | c :: rest => if c = '.' then some [c] else (extRev rest).map (fun t => c :: t)

/-- Node `path.extname` on a file name, at the character-list level: the
substring starting at the last dot, provided that dot is not the first
character; `[]` otherwise. -/
def extnameData (l : List Char) : List Char :=
  match extRev l.reverse with
  | none => []
  | some r => if r.length < l.length then r.reverse else []

/-- Node `path.extname` on a file name. -/
def extname (s : String) : String := ⟨extnameData s.data⟩

/-- Node `path.basename(name, ext)` given the file name `name`: strips `ext`
when it is a proper suffix of `name`. -/
def basenameStr (name ext : String) : String :=
  if ext.data.isSuffixOf name.data ∧ ext.data.length < name.data.length then
    ⟨name.data.take (name.data.length - ext.data.length)⟩
  else name

/-- Node `path.basename` of a path: its last segment. -/
def basename (p : FsPath) : String := (p.getLast?).getD ""

/-- Node `path.basename(p, ext)` of a path. -/
def basenameExt (p : FsPath) (ext : String) : String := basenameStr (basename p) ext

/-- Length of the common prefix of two segment lists. -/
def commonPrefixLen : List String → List String → Nat
  | a :: as, b :: bs => if a = b then commonPrefixLen as bs + 1 else 0
  | _, _ => 0

/-- Node `path.relative(from, to)` for normalized absolute paths, as a
segment list: `".."` segments up to the common prefix, then the remainder
of `to`. -/
def relativeSegs (base p : FsPath) : List String :=
  List.replicate (base.length - commonPrefixLen base p) ".." ++ p.drop (commonPrefixLen base p)

/-- Node `path.dirname` composed with splitting on separators, for a
relative path given as segments: drops the file name; a single segment
(or none) yields `["."]` exactly as `path.dirname` returns `"."`. -/
def dirnameSegs (l : List String) : List String :=
  if l.length ≤ 1 then ["."] else l.dropLast

/-- The three error kinds of `AnalysisErrorType` in `types.ts`. -/
inductive AnalysisErrorType where
  | InvalidFileName
  | InvalidDirectoryStructure
  | MissingTest
deriving DecidableEq, Repr

/-- The `AnalysisError` record of `types.ts`; absent optional fields are
`none`. -/
structure AnalysisError where
  type : AnalysisErrorType
  message : String
  sourceFilePath : Option String
  actualTestPath : Option String
  expectedTestPath : Option String
deriving DecidableEq, Repr

/-- The `AnalysisResult` record of `types.ts`. -/
structure AnalysisResult where
  testFile : String
  testFilePath : FsPath
  errors : List AnalysisError
deriving DecidableEq, Repr

/-- The `AnalyzerOptions` record of `types.ts`. -/
structure AnalyzerOptions where
  srcRoot : FsPath
  testRoot : FsPath
  fileExtension : String
  validateFileName : Bool
  validateDirectoryStructure : Bool
  validateMissingTests : Bool
  testFileSuffix : String
  testProjectSuffix : String
  ignoreDirectories : List String
  ignoreFiles : List String
deriving DecidableEq, Repr

/-- Return type of `Analyzer.analyzeProject`. -/
structure ProjectAnalysis where
  results : List AnalysisResult
  totalFiles : Nat
deriving DecidableEq, Repr

/-- `Analyzer.calculateExpectedTestPath` (src/analyzer.ts:532-553). -/
def calculateExpectedTestPath (sourceFilePath : FsPath) (options : AnalyzerOptions) : FsPath :=
  let sourceSegments := relativeSegs options.srcRoot sourceFilePath
  let projectName := sourceSegments.headD ""
  let testProjectName := projectName ++ options.testProjectSuffix
  let remainingPath := (sourceSegments.drop 1).dropLast
  let sourceFileName := basename sourceFilePath
  let testFileName :=
    replaceFirst sourceFileName (extname sourceFileName) ++ options.testFileSuffix
      ++ extname sourceFileName
  options.testRoot ++ [testProjectName] ++ remainingPath ++ [testFileName]

/-- `Analyzer.findMatchingSourceFiles` (src/analyzer.ts:371-380): all source
files whose base name (extension stripped) equals `baseName`
case-insensitively, preserving input order. -/
def findMatchingSourceFiles (sourceFiles : List FsPath) (baseName : String)
    (extension : String) : List FsPath :=
  sourceFiles.filter (fun file => lowerStr (basenameExt file extension) == lowerStr baseName)

/-- The comparison of a test file against the expected test path of a
resolved source file with its two error shapes; this code appears verbatim
in both the single-match branch (src/analyzer.ts:139-171) and the
disambiguated multiple-match branch (src/analyzer.ts:94-129). -/
def compareWithExpected (sourcePath : FsPath) (options : AnalyzerOptions)
    (testFile : FsPath) : List AnalysisError :=
  let expectedTestPath := calculateExpectedTestPath sourcePath options
  if testFile = expectedTestPath then []
  else if testFile.dropLast = expectedTestPath.dropLast then
    [⟨.InvalidFileName,
      "Test file has incorrect name. Expected: " ++ basename expectedTestPath,
      some (renderPath sourcePath), some (renderPath testFile),
      some (renderPath expectedTestPath)⟩]
  else
    [⟨.InvalidDirectoryStructure, "Test file is in wrong directory",
      some (renderPath sourcePath), some (renderPath testFile),
      some (renderPath expectedTestPath)⟩]

/-- The directory-structure predicate of the multiple-match branch of
`Analyzer.analyzeProject` (src/analyzer.ts:80-92): the candidate's project
segment must equal the test project segment with the first occurrence of
`testProjectSuffix` removed, and the remaining directory path must match
exactly. -/
def dirMatchPred (options : AnalyzerOptions) (testProjectDirSegment : String)
    (testPathAfterProjectDir : String) (file : FsPath) : Bool :=
  let sourceDirSegments := dirnameSegs (relativeSegs options.srcRoot file)
  let sourceProjectDirSegment := sourceDirSegments.headD ""
  let sourcePathAfterProjectDir := sepJoin (sourceDirSegments.drop 1)
  sourceProjectDirSegment == replaceFirst testProjectDirSegment options.testProjectSuffix
    && sourcePathAfterProjectDir == testPathAfterProjectDir

/-- The per-test-file loop body of `Analyzer.analyzeProject`
(src/analyzer.ts:47-176), producing the `AnalysisResult` for one test
file (its `errors` may be empty, in which case the caller drops it). -/
def analyzeTestFile (sourceFiles : List FsPath) (options : AnalyzerOptions)
    (testFile : FsPath) : AnalysisResult :=
  let testFileName := basenameExt testFile options.fileExtension
  let sourceFileName := stripTrailing testFileName options.testFileSuffix
  let matchingSourceFiles :=
    findMatchingSourceFiles sourceFiles sourceFileName options.fileExtension
  let errors :=
    if matchingSourceFiles.length = 0 then
      [⟨.InvalidDirectoryStructure,
        "Source file not found: " ++ sourceFileName ++ options.fileExtension,
        none, some (renderPath testFile), none⟩]
    else if matchingSourceFiles.length > 1 then
      let relativeTestPath := relativeSegs options.testRoot testFile
      let testDirSegments := dirnameSegs relativeTestPath
      let testProjectDirSegment := testDirSegments.headD ""
      let testPathAfterProjectDir := sepJoin (testDirSegments.drop 1)
      match matchingSourceFiles.find?
          (dirMatchPred options testProjectDirSegment testPathAfterProjectDir) with
      | some matchingSourceByDir => compareWithExpected matchingSourceByDir options testFile
      | none =>
        [⟨.InvalidDirectoryStructure,
          "Multiple matching source files found (" ++ toString matchingSourceFiles.length
            ++ "). Unable to determine correct source file",
          some (commaJoin (matchingSourceFiles.map renderPath)),
          some (renderPath testFile), none⟩]
    else
      compareWithExpected (matchingSourceFiles.headD []) options testFile
  ⟨basename testFile, testFile, errors⟩

/-- One step of building the missing-test lookup: JavaScript
`Map.set(baseName, testFile)` on an association list. -/
def setAssoc (m : List (String × FsPath)) (k : String) (v : FsPath) : List (String × FsPath) :=
  if m.any (fun kv => kv.1 == k) then
    m.map (fun kv => if kv.1 == k then (k, v) else kv)
  else m ++ [(k, v)]

/-- JavaScript `Map.get` on an association list. -/
def lookupAssoc (m : List (String × FsPath)) (k : String) : Option FsPath :=
  (m.find? (fun kv => kv.1 == k)).map (fun kv => kv.2)

/-- Base name of a test file with its own extension and then the test file
suffix stripped, as the missing-test sweep computes map keys
(src/analyzer.ts:564-568). -/
def strippedTestBase (options : AnalyzerOptions) (testFile : FsPath) : String :=
  stripTrailing (basenameExt testFile (extname (basename testFile))) options.testFileSuffix

/-- Base name of a source file with its own extension stripped, as the
missing-test sweep computes it (src/analyzer.ts:572). -/
def sourceBase (sourceFile : FsPath) : String :=
  basenameExt sourceFile (extname (basename sourceFile))

/-- The test-base-name lookup of the missing-test sweep
(src/analyzer.ts:561-569). -/
def buildTestMap (testFiles : List FsPath) (options : AnalyzerOptions) :
    List (String × FsPath) :=
  testFiles.foldl (fun m testFile => setAssoc m (strippedTestBase options testFile) testFile) []

/-- The message of a `MissingTest` error for a source file. -/
def missingMsg (sourceFile : FsPath) : String :=
  "Missing test file for source file: " ++ renderPath sourceFile

/-- The `MissingTest` result the sweep synthesizes for one source file
(src/analyzer.ts:576-587): keyed by the expected test path, with the single
`MissingTest` error. -/
def mkMissingResult (options : AnalyzerOptions) (sourceFile : FsPath) : AnalysisResult :=
  let expectedTestPath := calculateExpectedTestPath sourceFile options
  ⟨basename expectedTestPath, expectedTestPath,
    [⟨.MissingTest, missingMsg sourceFile, none, none, none⟩]⟩

/-- `Analyzer.analyzeMissingTests` (src/analyzer.ts:555-592). -/
def analyzeMissingTests (sourceFiles testFiles : List FsPath)
    (options : AnalyzerOptions) : List AnalysisResult :=
  let testFileMap := buildTestMap testFiles options
  sourceFiles.foldl
    (fun results sourceFile =>
      match lookupAssoc testFileMap (sourceBase sourceFile) with
      | some _ => results
      | none => results ++ [mkMissingResult options sourceFile])
    []

/-- The ignored-directory test of the final filter pass
(src/analyzer.ts:192-205): on the rendered absolute path string the source
checks `includes(sep+d+sep) || endsWith(sep+d) || startsWith(d+sep)`; on a
normalized absolute segment list with well-formed segments this is exactly
"`d` is a non-final segment or the final segment" (the `startsWith` branch
cannot fire on an absolute path, which begins with the separator). -/
def ignoredDirHit (segs : FsPath) (d : String) : Bool :=
  decide (d ∈ segs.dropLast) || (segs.getLast? == some d)

/-- The final filter pass of `Analyzer.analyzeProject`
(src/analyzer.ts:187-215). -/
def keepResult (options : AnalyzerOptions) (result : AnalysisResult) : Bool :=
  let normalizedPath := result.testFilePath
  (options.ignoreDirectories.all (fun d => !ignoredDirHit normalizedPath d))
    && (options.ignoreFiles.all
      (fun f => !(lowerStr (basename normalizedPath) == lowerStr f)))

/-- `Analyzer.analyzeProject` (src/analyzer.ts:44-220), as the pure core
function of the already-enumerated file lists. -/
def analyzeProject (sourceFiles testFiles : List FsPath)
    (options : AnalyzerOptions) : ProjectAnalysis :=
  let results := (testFiles.map (analyzeTestFile sourceFiles options)).filter
    (fun r => r.errors.length > 0)
  let results := results ++
    (if options.validateMissingTests then analyzeMissingTests sourceFiles testFiles options
     else [])
  ⟨results.filter (keepResult options), testFiles.length + sourceFiles.length⟩

/-! ## Spec-side definitions

The following definitions follow the words of the specification (not the
source); they exist to be compared with the source-translated definitions
above, for the refinement-style claims. -/

/-- Base name in the spec's sense: the file name with its extension (as
computed by `extname`) stripped from the end. -/
def specBaseName (name : String) : String :=
  ⟨name.data.take (name.data.length - (extname name).data.length)⟩

/-- The expected test file name in the spec's words: base name (extension
stripped) + `testFileSuffix` + original extension. -/
def specTestFileName (name testFileSuffix : String) : String :=
  specBaseName name ++ testFileSuffix ++ extname name

/-- The disambiguation tie-break in the claim's words: the first candidate,
in input order, whose last directory segment (relative to `srcRoot`)
equals, case-insensitively, the last directory segment of the test file's
path relative to `testRoot`. -/
def specSelectByLastSegment (options : AnalyzerOptions) (testFile : FsPath)
    (candidates : List FsPath) : Option FsPath :=
  let lastTestDirSegment :=
    ((dirnameSegs (relativeSegs options.testRoot testFile)).getLast?).getD ""
  candidates.find? (fun file =>
    let lastSourceDirSegment :=
      ((dirnameSegs (relativeSegs options.srcRoot file)).getLast?).getD ""
    lowerStr lastSourceDirSegment == lowerStr lastTestDirSegment)

/-- Greedy left-to-right split of a character list on the separator `", "`;
the inverse of `commaJoinData`, used to read back the comma-joined
`sourceFilePath` field. -/
def splitCS : List Char → List (List Char)
  | [] => [[]]
  | [c] => [[c]]
  | c :: d :: rest =>
    if c = ',' ∧ d = ' ' then [] :: splitCS rest
    else
      match splitCS (d :: rest) with
      | [] => [[c]]
      | chunk :: more => (c :: chunk) :: more

/-- A finding refers to a source file `p` when `p`'s rendered path is one of
the comma-separated components of its `sourceFilePath` field (the field is
a single path for resolved findings and a comma-joined list for the
unresolved multiple-match finding). -/
def errorMentionsPath (e : AnalysisError) (p : FsPath) : Bool :=
  match e.sourceFilePath with
  | none => false
  | some s => (splitCS s.data).contains (renderPath p).data

/-- The pattern `pat` occurs in `l` only as its trailing suffix: any
occurrence position is the final one.  Used as the hypothesis under which
JavaScript remove-first-occurrence agrees with strip-trailing-suffix. -/
def occursOnlyTrailing (l pat : List Char) : Prop :=
  pat ≠ [] ∧ ∀ i < l.length, pat.isPrefixOf (l.drop i) = true → i + pat.length = l.length

instance (l pat : List Char) : Decidable (occursOnlyTrailing l pat) := by
  unfold occursOnlyTrailing; infer_instance

/-! ## Basic lemmas about the string and path primitives -/

theorem strMk_data (s : String) : (⟨s.data⟩ : String) = s := rfl

theorem strData_append (a b : String) : (a ++ b).data = a.data ++ b.data := rfl

theorem strData_ne_nil (s : String) (h : s ≠ "") : s.data ≠ [] := by
  intro hd
  exact h (String.ext hd)

theorem isPrefixOf_eq_true_iff (p l : List Char) :
    p.isPrefixOf l = true ↔ ∃ t, p ++ t = l := by
  induction p generalizing l with
  | nil => simp [List.isPrefixOf]
  | cons a as ih =>
    cases l with
    | nil => simp [List.isPrefixOf]
    | cons b bs =>
      simp only [List.isPrefixOf, Bool.and_eq_true, beq_iff_eq, ih]
      constructor
      · rintro ⟨rfl, t, rfl⟩
        exact ⟨t, rfl⟩
      · rintro ⟨t, ht⟩
        cases ht
        exact ⟨rfl, t, rfl⟩

theorem isSuffixOf_append_self (a b : List Char) : b.isSuffixOf (a ++ b) = true := by
  simp only [List.isSuffixOf, List.reverse_append]
  exact (isPrefixOf_eq_true_iff _ _).mpr ⟨a.reverse, rfl⟩

theorem stripTrailing_append (a b : String) : stripTrailing (a ++ b) b = a := by
  unfold stripTrailing
  rw [strData_append, if_pos (isSuffixOf_append_self a.data b.data)]
  have hlen : (a.data ++ b.data).length - b.data.length = a.data.length := by
    simp [List.length_append]
  rw [hlen, List.take_left, strMk_data]

theorem basenameStr_append (a ext : String) (ha : a ≠ "") :
    basenameStr (a ++ ext) ext = a := by
  unfold basenameStr
  rw [strData_append]
  have hpos : 0 < a.data.length := List.length_pos.mpr (strData_ne_nil a ha)
  have hlt : ext.data.length < (a.data ++ ext.data).length := by
    rw [List.length_append]
    omega
  rw [if_pos ⟨isSuffixOf_append_self a.data ext.data, hlt⟩]
  have hlen : (a.data ++ ext.data).length - ext.data.length = a.data.length := by
    simp [List.length_append]
  rw [hlen, List.take_left, strMk_data]

theorem extRev_append_dot (x y : List Char) (hx : '.' ∉ x) :
    extRev (x ++ '.' :: y) = some (x ++ ['.']) := by
  induction x with
  | nil => simp [extRev]
  | cons c x' ih =>
    have hc : c ≠ '.' := fun h => hx (h ▸ List.mem_cons_self c x')
    have hx' : '.' ∉ x' := fun h => hx (List.mem_cons_of_mem c h)
    simp [extRev, hc, ih hx']

theorem extname_of_append (base ext : String) (e : List Char)
    (hb : base ≠ "") (he : ext.data = '.' :: e) (hd : '.' ∉ e) :
    extname (base ++ ext) = ext := by
  unfold extname extnameData
  rw [strData_append, he]
  have hrev : (base.data ++ '.' :: e).reverse = e.reverse ++ '.' :: base.data.reverse := by
    simp
  rw [hrev, extRev_append_dot _ _ (by simpa using hd)]
  have hbl : 0 < base.data.length := List.length_pos.mpr (strData_ne_nil base hb)
  have hlen : (e.reverse ++ ['.']).length < (base.data ++ '.' :: e).length := by
    have h1 : (e.reverse ++ ['.']).length = e.length + 1 := by simp
    have h2 : (base.data ++ '.' :: e).length = base.data.length + (e.length + 1) := by simp
    rw [h1, h2]
    omega
  simp only [Option.some.injEq, hlen, if_pos]
  have : (e.reverse ++ ['.']).reverse = '.' :: e := by simp
  rw [this, ← he, strMk_data]

theorem removeFirstOcc_of_trailing (pat a : List Char) (hp : pat ≠ [])
    (h : ∀ i < (a ++ pat).length, pat.isPrefixOf ((a ++ pat).drop i) = true →
      i + pat.length = (a ++ pat).length) :
    removeFirstOcc pat (a ++ pat) = a := by
  induction a with
  | nil =>
    cases pat with
    | nil => exact absurd rfl hp
    | cons c cs =>
      show removeFirstOcc (c :: cs) (c :: cs) = []
      unfold removeFirstOcc
      rw [if_pos]
      · simp
      · have hpre : (c :: cs).isPrefixOf (c :: cs) = true :=
          (isPrefixOf_eq_true_iff _ _).mpr ⟨[], List.append_nil _⟩
        simp [hpre, List.isEmpty]
  | cons c a' ih =>
    show removeFirstOcc pat (c :: (a' ++ pat)) = c :: a'
    unfold removeFirstOcc
    have hnotpre : ¬ (pat.isPrefixOf (c :: (a' ++ pat)) = true) := by
      intro hpre
      have := h 0 (by simp) (by simpa using hpre)
      have hpl : 0 < pat.length := List.length_pos.mpr hp
      simp only [List.length_cons, List.length_append, Nat.zero_add] at this
      omega
    rw [if_neg (by simp_all)]
    congr 1
    apply ih
    intro i hi hpre
    have := h (i + 1)
      (by simp only [List.length_cons, List.length_append] at hi ⊢; omega)
      (by simpa using hpre)
    simp only [List.length_cons, List.length_append] at this ⊢
    omega

theorem replaceFirst_of_trailing (base ext : String)
    (h : occursOnlyTrailing (base ++ ext).data ext.data) :
    replaceFirst (base ++ ext) ext = base := by
  obtain ⟨hp, htr⟩ := h
  unfold replaceFirst
  rw [strData_append]
  rw [removeFirstOcc_of_trailing ext.data base.data hp (by
    intro i hi hpre
    exact htr i (by simpa [strData_append] using hi) (by simpa [strData_append] using hpre))]

theorem commonPrefixLen_append (l r : List String) :
    commonPrefixLen l (l ++ r) = l.length := by
  induction l with
  | nil => cases r <;> rfl
  | cons a as ih => simp [commonPrefixLen, ih]

theorem relativeSegs_append (l r : FsPath) : relativeSegs l (l ++ r) = r := by
  simp [relativeSegs, commonPrefixLen_append, List.drop_left]

theorem renderSegs_head_eq (l : List (List Char)) :
    renderSegs l = [] ∨ (renderSegs l).head? = some '/' := by
  cases l with
  | nil => exact Or.inl rfl
  | cons s rest => exact Or.inr rfl

theorem sep_chunk_split (a : List Char) : ∀ (b x y : List Char), '/' ∉ a → '/' ∉ b →
    (x = [] ∨ x.head? = some '/') → (y = [] ∨ y.head? = some '/') →
    a ++ x = b ++ y → a = b ∧ x = y := by
  induction a with
  | nil =>
    intro b x y _ hb hx _ h
    cases b with
    | nil => exact ⟨rfl, h⟩
    | cons d b' =>
      exfalso
      rcases hx with hx | hx
      · subst hx
        exact absurd h (by simp)
      · have : x.head? = some d := by
          rw [List.nil_append] at h
          rw [h]
          rfl
        rw [this] at hx
        have hd : d = '/' := by injection hx
        exact (hb (hd ▸ List.mem_cons_self d b'))
  | cons c a' ih =>
    intro b x y ha hb hx hy h
    cases b with
    | nil =>
      exfalso
      rcases hy with hy | hy
      · subst hy
        exact absurd h (by simp)
      · have : y.head? = some c := by
          rw [List.nil_append] at h
          rw [← h]
          rfl
        rw [this] at hy
        have hc : c = '/' := by injection hy
        exact (ha (hc ▸ List.mem_cons_self c a'))
    | cons d b' =>
      simp only [List.cons_append, List.cons.injEq] at h
      obtain ⟨rfl, h2⟩ := h
      have ha' : '/' ∉ a' := fun hm => ha (List.mem_cons_of_mem _ hm)
      have hb' : '/' ∉ b' := fun hm => hb (List.mem_cons_of_mem _ hm)
      obtain ⟨rfl, hxy⟩ := ih b' x y ha' hb' hx hy h2
      exact ⟨rfl, hxy⟩

theorem renderSegs_inj (l₁ : List (List Char)) : ∀ (l₂ : List (List Char)),
    (∀ s ∈ l₁, '/' ∉ s) → (∀ s ∈ l₂, '/' ∉ s) →
    renderSegs l₁ = renderSegs l₂ → l₁ = l₂ := by
  induction l₁ with
  | nil =>
    intro l₂ _ _ h
    cases l₂ with
    | nil => rfl
    | cons s rest => exact absurd h.symm (by simp [renderSegs])
  | cons s₁ r₁ ih =>
    intro l₂ h₁ h₂ h
    cases l₂ with
    | nil => exact absurd h (by simp [renderSegs])
    | cons s₂ r₂ =>
      simp only [renderSegs, List.cons.injEq] at h
      replace h := h.2
      obtain ⟨hs, hr⟩ := sep_chunk_split s₁ s₂ (renderSegs r₁) (renderSegs r₂)
        (h₁ s₁ (List.mem_cons_self _ _)) (h₂ s₂ (List.mem_cons_self _ _))
        (renderSegs_head_eq r₁) (renderSegs_head_eq r₂) h
      have := ih r₂ (fun s hs' => h₁ s (List.mem_cons_of_mem _ hs'))
        (fun s hs' => h₂ s (List.mem_cons_of_mem _ hs')) hr
      rw [hs, this]

theorem renderPath_inj (p q : FsPath) (hp : wfPath p) (hq : wfPath q)
    (h : renderPath p = renderPath q) : p = q := by
  have hdata : renderSegs (p.map String.data) = renderSegs (q.map String.data) :=
    congrArg String.data h
  have hmaps : p.map String.data = q.map String.data := by
    apply renderSegs_inj _ _ _ _ hdata
    · intro s hs
      obtain ⟨t, ht, rfl⟩ := List.mem_map.mp hs
      intro hmem
      exact ((hp.2 t ht).2 '/' hmem).1 rfl
    · intro s hs
      obtain ⟨t, ht, rfl⟩ := List.mem_map.mp hs
      intro hmem
      exact ((hq.2 t ht).2 '/' hmem).1 rfl
  have hinj : Function.Injective String.data := fun _ _ hd => String.ext hd
  exact List.map_injective_iff.mpr hinj hmaps

theorem comma_notin_renderSegs (l : List (List Char)) (h : ∀ s ∈ l, ',' ∉ s) :
    ',' ∉ renderSegs l := by
  induction l with
  | nil => simp [renderSegs]
  | cons s rest ih =>
    simp only [renderSegs, List.mem_cons, List.mem_append]
    rintro (hc | hc | hc)
    · exact absurd hc.symm (by decide)
    · exact h s (List.mem_cons_self _ _) hc
    · exact ih (fun t ht => h t (List.mem_cons_of_mem _ ht)) hc

theorem comma_notin_renderPath (p : FsPath) (hp : wfPath p) :
    ',' ∉ (renderPath p).data := by
  apply comma_notin_renderSegs
  intro s hs
  obtain ⟨t, ht, rfl⟩ := List.mem_map.mp hs
  intro hmem
  exact ((hp.2 t ht).2 ',' hmem).2 rfl

theorem splitCS_of_no_comma (l : List Char) (h : ',' ∉ l) : splitCS l = [l] := by
  induction l with
  | nil => rfl
  | cons c tail ih =>
    cases tail with
    | nil => rfl
    | cons d rest =>
      have hc : c ≠ ',' := fun hc => h (hc ▸ List.mem_cons_self _ _)
      have htail : ',' ∉ d :: rest := fun hm => h (List.mem_cons_of_mem _ hm)
      show splitCS (c :: d :: rest) = [c :: d :: rest]
      unfold splitCS
      rw [if_neg (fun hand => hc hand.1)]
      rw [ih htail]

theorem errorMentionsPath_single (e : AnalysisError) (c p : FsPath)
    (hfield : e.sourceFilePath = some (renderPath c))
    (hc : wfPath c) (hp : wfPath p) (hne : c ≠ p) :
    errorMentionsPath e p = false := by
  unfold errorMentionsPath
  rw [hfield]
  simp only [splitCS_of_no_comma _ (comma_notin_renderPath c hc), List.contains_cons,
    List.contains_nil, Bool.or_false, beq_eq_false_iff_ne, ne_eq]
  intro hdata
  exact hne (renderPath_inj c p hc hp (String.ext hdata.symm))

theorem lookupAssoc_isSome_iff (m : List (String × FsPath)) (k : String) :
    (lookupAssoc m k).isSome ↔ ∃ kv ∈ m, kv.1 = k := by
  simp [lookupAssoc, List.find?_isSome, beq_iff_eq]

theorem keys_setAssoc (m : List (String × FsPath)) (k' k : String) (v : FsPath) :
    (∃ kv ∈ setAssoc m k' v, kv.1 = k) ↔ (k = k' ∨ ∃ kv ∈ m, kv.1 = k) := by
  unfold setAssoc
  by_cases hany : m.any (fun kv => kv.1 == k') = true
  · rw [if_pos hany]
    constructor
    · rintro ⟨kv, hkv, rfl⟩
      obtain ⟨kv₀, hkv₀, hf⟩ := List.mem_map.mp hkv
      by_cases h0 : kv₀.1 == k'
      · rw [if_pos h0] at hf
        subst hf
        exact Or.inl rfl
      · rw [if_neg h0] at hf
        subst hf
        exact Or.inr ⟨kv₀, hkv₀, rfl⟩
    · rintro (rfl | ⟨kv₀, hkv₀, hk₀⟩)
      · obtain ⟨kv₁, hkv₁, hb⟩ := List.any_eq_true.mp hany
        refine ⟨(k, v), List.mem_map.mpr ⟨kv₁, hkv₁, ?_⟩, rfl⟩
        rw [if_pos hb]
      · by_cases h0 : kv₀.1 == k'
        · refine ⟨(k', v), List.mem_map.mpr ⟨kv₀, hkv₀, ?_⟩, ?_⟩
          · rw [if_pos h0]
          · have : kv₀.1 = k' := beq_iff_eq.mp h0
            rw [← hk₀, this]
        · refine ⟨kv₀, List.mem_map.mpr ⟨kv₀, hkv₀, ?_⟩, hk₀⟩
          rw [if_neg h0]
  · rw [if_neg hany]
    constructor
    · rintro ⟨kv, hkv, rfl⟩
      rcases List.mem_append.mp hkv with hm | hm
      · exact Or.inr ⟨kv, hm, rfl⟩
      · have : kv = (k', v) := List.mem_singleton.mp hm
        subst this
        exact Or.inl rfl
    · rintro (rfl | ⟨kv₀, hkv₀, hk₀⟩)
      · exact ⟨(k, v), List.mem_append.mpr (Or.inr (List.mem_singleton.mpr rfl)), rfl⟩
      · exact ⟨kv₀, List.mem_append.mpr (Or.inl hkv₀), hk₀⟩

theorem lookup_foldl_setAssoc (options : AnalyzerOptions) (ts : List FsPath) :
    ∀ (m : List (String × FsPath)) (k : String),
    (lookupAssoc (ts.foldl (fun m t => setAssoc m (strippedTestBase options t) t) m) k).isSome
      ↔ ((lookupAssoc m k).isSome ∨ k ∈ ts.map (strippedTestBase options)) := by
  induction ts with
  | nil => intro m k; simp
  | cons t ts ih =>
    intro m k
    rw [List.foldl_cons, ih]
    rw [lookupAssoc_isSome_iff, keys_setAssoc, ← lookupAssoc_isSome_iff]
    simp only [List.map_cons, List.mem_cons]
    tauto

theorem lookup_buildTestMap_isSome (testFiles : List FsPath) (options : AnalyzerOptions)
    (k : String) :
    (lookupAssoc (buildTestMap testFiles options) k).isSome
      ↔ k ∈ testFiles.map (strippedTestBase options) := by
  unfold buildTestMap
  rw [lookup_foldl_setAssoc]
  simp [lookupAssoc]

theorem analyzeMissingTests_foldl (options : AnalyzerOptions)
    (tm : List (String × FsPath)) (srcs : List FsPath) :
    ∀ acc : List AnalysisResult,
    srcs.foldl
      (fun results sourceFile =>
        match lookupAssoc tm (sourceBase sourceFile) with
        | some _ => results
        | none => results ++ [mkMissingResult options sourceFile]) acc
    = acc ++ (srcs.filter
        (fun s => (lookupAssoc tm (sourceBase s)).isNone)).map (mkMissingResult options) := by
  induction srcs with
  | nil => intro acc; simp
  | cons s srcs ih =>
    intro acc
    rw [List.foldl_cons]
    cases h : lookupAssoc tm (sourceBase s) with
    | some v =>
      rw [ih]
      have : (lookupAssoc tm (sourceBase s)).isNone = false := by rw [h]; rfl
      simp [List.filter_cons, this]
    | none =>
      rw [ih]
      have : (lookupAssoc tm (sourceBase s)).isNone = true := by rw [h]; rfl
      simp [List.filter_cons, this]

theorem analyzeMissingTests_eq (sourceFiles testFiles : List FsPath)
    (options : AnalyzerOptions) :
    analyzeMissingTests sourceFiles testFiles options
      = (sourceFiles.filter
          (fun s => (lookupAssoc (buildTestMap testFiles options) (sourceBase s)).isNone)).map
          (mkMissingResult options) := by
  unfold analyzeMissingTests
  rw [analyzeMissingTests_foldl]
  simp

/-! ## Concrete fixtures shared by several claims -/

/-- Default-style options: `srcRoot=/r/src`, `testRoot=/r/tests`, `.cs`
files, `Tests` file suffix, `.Tests` project suffix, no ignore lists, all
validations on. -/
def optsDefault : AnalyzerOptions :=
  ⟨["r", "src"], ["r", "tests"], ".cs", true, true, true, "Tests", ".Tests", [], []⟩

/-! ## Claims -/

/-- C5: when `validateMissingTests` is enabled the sweep builds a lookup
from suffix-stripped test base names to test paths, and produces exactly
one `MissingTest` result——keyed by the expected test path, with message
"Missing test file for source file: `<absolute source path>`"——for every
source file whose base name has no entry, and none for source files whose
base name has an entry. -/
theorem C5_missing_test_sweep (sourceFiles testFiles : List FsPath)
    (options : AnalyzerOptions) :
    analyzeMissingTests sourceFiles testFiles options
      = (sourceFiles.filter
          (fun s => (lookupAssoc (buildTestMap testFiles options) (sourceBase s)).isNone)).map
          (fun s => ⟨basename (calculateExpectedTestPath s options),
            calculateExpectedTestPath s options,
            [⟨.MissingTest, "Missing test file for source file: " ++ renderPath s,
              none, none, none⟩]⟩)
    ∧ ∀ s : FsPath,
        (lookupAssoc (buildTestMap testFiles options) (sourceBase s)).isNone
          ↔ sourceBase s ∉ testFiles.map (strippedTestBase options) := by
  constructor
  · rw [analyzeMissingTests_eq]
    rfl
  · intro s
    rw [Option.isNone_iff_eq_none, ← Option.not_isSome_iff_eq_none,
      lookup_buildTestMap_isSome]

/-- C9: the Structure Validator is deterministic——fixed inputs give
identical results——and every result in its output has a non-empty error
list. -/
theorem C9_determinism_nonempty (sourceFiles testFiles : List FsPath)
    (options : AnalyzerOptions) :
    analyzeProject sourceFiles testFiles options
        = analyzeProject sourceFiles testFiles options
    ∧ ∀ r ∈ (analyzeProject sourceFiles testFiles options).results, r.errors ≠ [] := by
  refine ⟨rfl, ?_⟩
  intro r hr
  unfold analyzeProject at hr
  simp only at hr
  have hr' := (List.mem_filter.mp hr).1
  rcases List.mem_append.mp hr' with h | h
  · have hlen := of_decide_eq_true (List.mem_filter.mp h).2
    exact List.ne_nil_of_length_pos hlen
  · by_cases hv : options.validateMissingTests
    · rw [if_pos hv, analyzeMissingTests_eq] at h
      obtain ⟨s, _, rfl⟩ := List.mem_map.mp h
      simp [mkMissingResult]
    · rw [if_neg hv] at h
      exact absurd h (List.not_mem_nil r)

/-- C9 witness: a run with one unmatched test file has a result in its
output, and that result's error list is non-empty. -/
theorem C9_witness :
    (⟨"FooTests.cs", ["r", "tests", "A.Tests", "FooTests.cs"],
      [⟨.InvalidDirectoryStructure, "Source file not found: Foo.cs",
        none, some "/r/tests/A.Tests/FooTests.cs", none⟩]⟩ : AnalysisResult)
        ∈ (analyzeProject [] [["r", "tests", "A.Tests", "FooTests.cs"]] optsDefault).results
    ∧ (⟨"FooTests.cs", ["r", "tests", "A.Tests", "FooTests.cs"],
      [⟨.InvalidDirectoryStructure, "Source file not found: Foo.cs",
        none, some "/r/tests/A.Tests/FooTests.cs", none⟩]⟩ : AnalysisResult).errors ≠ [] :=
  ⟨by decide, (C9_determinism_nonempty [] [["r", "tests", "A.Tests", "FooTests.cs"]]
    optsDefault).2 _ (by decide)⟩

/-- C6: no result in the final filtered output has an ignored directory as
a (non-final) path segment of its test file path, and none has a file name
equal, case-insensitively, to an ignored file name——regardless of how the
result was produced. -/
theorem C6_ignore_list_exclusion (sourceFiles testFiles : List FsPath)
    (options : AnalyzerOptions) :
    ∀ r ∈ (analyzeProject sourceFiles testFiles options).results,
      (∀ d ∈ options.ignoreDirectories, d ∉ r.testFilePath.dropLast)
      ∧ (∀ f ∈ options.ignoreFiles, lowerStr (basename r.testFilePath) ≠ lowerStr f) := by
  intro r hr
  unfold analyzeProject at hr
  simp only at hr
  have hkeep := (List.mem_filter.mp hr).2
  unfold keepResult at hkeep
  simp only [Bool.and_eq_true, List.all_eq_true] at hkeep
  obtain ⟨hdirs, hfiles⟩ := hkeep
  constructor
  · intro d hd hmem
    have hbool := hdirs d hd
    unfold ignoredDirHit at hbool
    simp [hmem] at hbool
  · intro f hf heq
    have hbool := hfiles f hf
    simp [heq] at hbool

/-- C6 witness: with `obj` ignored as a directory and `Skip.cs` as a file,
the surviving result of a concrete run has neither an ignored directory
segment nor an ignored file name. -/
theorem C6_witness :
    (⟨"FooTests.cs", ["r", "tests", "A.Tests", "FooTests.cs"],
      [⟨.InvalidDirectoryStructure, "Source file not found: Foo.cs",
        none, some "/r/tests/A.Tests/FooTests.cs", none⟩]⟩ : AnalysisResult)
        ∈ (analyzeProject [] [["r", "tests", "A.Tests", "FooTests.cs"]]
          ⟨["r", "src"], ["r", "tests"], ".cs", true, true, true, "Tests", ".Tests",
            ["obj"], ["Skip.cs"]⟩).results
    ∧ ((∀ d ∈ ["obj"], d ∉ (["r", "tests", "A.Tests", "FooTests.cs"] : FsPath).dropLast)
      ∧ (∀ f ∈ ["Skip.cs"],
          lowerStr (basename ["r", "tests", "A.Tests", "FooTests.cs"]) ≠ lowerStr f)) :=
  ⟨by decide, C6_ignore_list_exclusion [] [["r", "tests", "A.Tests", "FooTests.cs"]]
    ⟨["r", "src"], ["r", "tests"], ".cs", true, true, true, "Tests", ".Tests",
      ["obj"], ["Skip.cs"]⟩
    ⟨"FooTests.cs", ["r", "tests", "A.Tests", "FooTests.cs"],
      [⟨.InvalidDirectoryStructure, "Source file not found: Foo.cs",
        none, some "/r/tests/A.Tests/FooTests.cs", none⟩]⟩ (by decide)⟩

/-! ## Branch lemmas for the per-test-file loop body -/

theorem analyzeTestFile_zero_eq (sourceFiles : List FsPath) (options : AnalyzerOptions)
    (testFile : FsPath)
    (h : findMatchingSourceFiles sourceFiles
      (stripTrailing (basenameExt testFile options.fileExtension) options.testFileSuffix)
      options.fileExtension = []) :
    (analyzeTestFile sourceFiles options testFile).errors
      = [⟨.InvalidDirectoryStructure,
          "Source file not found: "
            ++ stripTrailing (basenameExt testFile options.fileExtension) options.testFileSuffix
            ++ options.fileExtension,
          none, some (renderPath testFile), none⟩] := by
  unfold analyzeTestFile
  simp only [h]
  rfl

theorem analyzeTestFile_single_eq (sourceFiles : List FsPath) (options : AnalyzerOptions)
    (testFile src : FsPath)
    (h : findMatchingSourceFiles sourceFiles
      (stripTrailing (basenameExt testFile options.fileExtension) options.testFileSuffix)
      options.fileExtension = [src]) :
    (analyzeTestFile sourceFiles options testFile).errors
      = compareWithExpected src options testFile := by
  unfold analyzeTestFile
  simp only [h]
  rfl

theorem analyzeTestFile_multi_resolved_eq (sourceFiles : List FsPath)
    (options : AnalyzerOptions) (testFile c : FsPath)
    (hlen : (findMatchingSourceFiles sourceFiles
      (stripTrailing (basenameExt testFile options.fileExtension) options.testFileSuffix)
      options.fileExtension).length > 1)
    (hfind : (findMatchingSourceFiles sourceFiles
      (stripTrailing (basenameExt testFile options.fileExtension) options.testFileSuffix)
      options.fileExtension).find?
        (dirMatchPred options
          ((dirnameSegs (relativeSegs options.testRoot testFile)).headD "")
          (sepJoin ((dirnameSegs (relativeSegs options.testRoot testFile)).drop 1)))
      = some c) :
    (analyzeTestFile sourceFiles options testFile).errors
      = compareWithExpected c options testFile := by
  simp only [analyzeTestFile]
  rw [if_neg (by omega), if_pos hlen, hfind]

theorem analyzeTestFile_multi_unresolved_eq (sourceFiles : List FsPath)
    (options : AnalyzerOptions) (testFile : FsPath)
    (hlen : (findMatchingSourceFiles sourceFiles
      (stripTrailing (basenameExt testFile options.fileExtension) options.testFileSuffix)
      options.fileExtension).length > 1)
    (hfind : (findMatchingSourceFiles sourceFiles
      (stripTrailing (basenameExt testFile options.fileExtension) options.testFileSuffix)
      options.fileExtension).find?
        (dirMatchPred options
          ((dirnameSegs (relativeSegs options.testRoot testFile)).headD "")
          (sepJoin ((dirnameSegs (relativeSegs options.testRoot testFile)).drop 1)))
      = none) :
    (analyzeTestFile sourceFiles options testFile).errors
      = [⟨.InvalidDirectoryStructure,
          "Multiple matching source files found ("
            ++ toString (findMatchingSourceFiles sourceFiles
              (stripTrailing (basenameExt testFile options.fileExtension)
                options.testFileSuffix) options.fileExtension).length
            ++ "). Unable to determine correct source file",
          some (commaJoin ((findMatchingSourceFiles sourceFiles
            (stripTrailing (basenameExt testFile options.fileExtension)
              options.testFileSuffix) options.fileExtension).map renderPath)),
          some (renderPath testFile), none⟩] := by
  simp only [analyzeTestFile]
  rw [if_neg (by omega), if_pos hlen, hfind]

/-- C4: with exactly one matching source file, a directory mismatch yields
exactly one `InvalidDirectoryStructure` finding with all three path fields
populated; a same-directory name mismatch (including case-only) yields
exactly one `InvalidFileName` finding with message
"Test file has incorrect name. Expected: `<name>`" and the same path
triple; an exact full-path match yields no finding. -/
theorem C4_single_match_classification (sourceFiles : List FsPath)
    (options : AnalyzerOptions) (testFile src : FsPath)
    (h : findMatchingSourceFiles sourceFiles
      (stripTrailing (basenameExt testFile options.fileExtension) options.testFileSuffix)
      options.fileExtension = [src]) :
    (testFile.dropLast ≠ (calculateExpectedTestPath src options).dropLast →
      (analyzeTestFile sourceFiles options testFile).errors
        = [⟨.InvalidDirectoryStructure, "Test file is in wrong directory",
            some (renderPath src), some (renderPath testFile),
            some (renderPath (calculateExpectedTestPath src options))⟩])
    ∧ (testFile.dropLast = (calculateExpectedTestPath src options).dropLast →
        testFile ≠ calculateExpectedTestPath src options →
      (analyzeTestFile sourceFiles options testFile).errors
        = [⟨.InvalidFileName,
            "Test file has incorrect name. Expected: "
              ++ basename (calculateExpectedTestPath src options),
            some (renderPath src), some (renderPath testFile),
            some (renderPath (calculateExpectedTestPath src options))⟩])
    ∧ (testFile = calculateExpectedTestPath src options →
      (analyzeTestFile sourceFiles options testFile).errors = []) := by
  rw [analyzeTestFile_single_eq sourceFiles options testFile src h]
  unfold compareWithExpected
  refine ⟨?_, ?_, ?_⟩
  · intro hdir
    have hne : testFile ≠ calculateExpectedTestPath src options := by
      intro heq
      exact hdir (by rw [heq])
    rw [if_neg hne, if_neg hdir]
  · intro hdir hne
    rw [if_neg hne, if_pos hdir]
  · intro heq
    rw [if_pos heq]

/-- C4 witness: a concrete run exercising the exact-match case via the
theorem, with its single-match hypothesis discharged. -/
theorem C4_witness :
    findMatchingSourceFiles [["r", "src", "App", "Handler.cs"]]
      (stripTrailing (basenameExt ["r", "tests", "App.Tests", "HandlerTests.cs"]
        optsDefault.fileExtension) optsDefault.testFileSuffix)
      optsDefault.fileExtension = [["r", "src", "App", "Handler.cs"]]
    ∧ (["r", "tests", "App.Tests", "HandlerTests.cs"] : FsPath)
        = calculateExpectedTestPath ["r", "src", "App", "Handler.cs"] optsDefault
    ∧ (analyzeTestFile [["r", "src", "App", "Handler.cs"]] optsDefault
        ["r", "tests", "App.Tests", "HandlerTests.cs"]).errors = [] :=
  ⟨by decide, by decide,
    (C4_single_match_classification [["r", "src", "App", "Handler.cs"]] optsDefault
      ["r", "tests", "App.Tests", "HandlerTests.cs"] ["r", "src", "App", "Handler.cs"]
      (by decide)).2.2 (by decide)⟩

/-- C8 counterexample: the claim asserts the zero-match finding carries no
`actualTestPath`, but on a concrete zero-match input the emitted error has
`actualTestPath` set to the test file's own path, so the error list is not
the record the claim describes. -/
theorem C8_counterexample :
    (analyzeTestFile [] optsDefault ["r", "tests", "A.Tests", "FooTests.cs"]).errors
        ≠ [⟨.InvalidDirectoryStructure, "Source file not found: Foo.cs",
            none, none, none⟩]
    ∧ ((analyzeTestFile [] optsDefault ["r", "tests", "A.Tests", "FooTests.cs"]).errors.map
        (fun e => e.actualTestPath)) = [some "/r/tests/A.Tests/FooTests.cs"] := by
  decide

/-- C8 amended: for a test file whose inferred base name matches zero
source files, the analyzer emits exactly one `InvalidDirectoryStructure`
finding with message "Source file not found: `<name><ext>`", no
`sourceFilePath`, no `expectedTestPath`, and `actualTestPath` set to the
test file's own path. -/
theorem C8_amended_zero_match (sourceFiles : List FsPath) (options : AnalyzerOptions)
    (testFile : FsPath)
    (h : findMatchingSourceFiles sourceFiles
      (stripTrailing (basenameExt testFile options.fileExtension) options.testFileSuffix)
      options.fileExtension = []) :
    (analyzeTestFile sourceFiles options testFile).errors
      = [⟨.InvalidDirectoryStructure,
          "Source file not found: "
            ++ stripTrailing (basenameExt testFile options.fileExtension)
              options.testFileSuffix
            ++ options.fileExtension,
          none, some (renderPath testFile), none⟩] :=
  analyzeTestFile_zero_eq sourceFiles options testFile h

/-- C8 witness: the amended zero-match behavior at a concrete input. -/
theorem C8_witness :
    findMatchingSourceFiles []
      (stripTrailing (basenameExt ["r", "tests", "A.Tests", "FooTests.cs"]
        optsDefault.fileExtension) optsDefault.testFileSuffix)
      optsDefault.fileExtension = []
    ∧ (analyzeTestFile [] optsDefault ["r", "tests", "A.Tests", "FooTests.cs"]).errors
      = [⟨.InvalidDirectoryStructure, "Source file not found: Foo.cs",
          none, some "/r/tests/A.Tests/FooTests.cs", none⟩] :=
  ⟨by decide, C8_amended_zero_match [] optsDefault
    ["r", "tests", "A.Tests", "FooTests.cs"] (by decide)⟩

/-- C7 counterexample: in the unresolved multiple-match finding of a
concrete run, `sourceFilePath` is the comma-joined list of the candidates'
absolute paths, not the relative `./src`-prefixed form the claim
describes. -/
theorem C7_counterexample :
    ((analyzeTestFile [["r", "src", "A", "H.cs"], ["r", "src", "B", "H.cs"]] optsDefault
        ["r", "tests", "C.Tests", "HTests.cs"]).errors.map (fun e => e.sourceFilePath))
      = [some "/r/src/A/H.cs, /r/src/B/H.cs"]
    ∧ (some "/r/src/A/H.cs, /r/src/B/H.cs" : Option String) ≠ some "src/A/H.cs, src/B/H.cs"
    ∧ (some "/r/src/A/H.cs, /r/src/B/H.cs" : Option String) ≠ some "./src/A/H.cs, ./src/B/H.cs" := by
  decide

/-- C7 amended: when multiple candidates match and none is selected by the
directory tie-break, the analyzer emits one `InvalidDirectoryStructure`
finding whose message states the number of matches, whose
`sourceFilePath` is the comma-joined list of all candidates' absolute
paths, whose `actualTestPath` is set, and whose `expectedTestPath` is
omitted. -/
theorem C7_amended_multi_unresolved (sourceFiles : List FsPath)
    (options : AnalyzerOptions) (testFile : FsPath)
    (hlen : (findMatchingSourceFiles sourceFiles
      (stripTrailing (basenameExt testFile options.fileExtension) options.testFileSuffix)
      options.fileExtension).length > 1)
    (hfind : (findMatchingSourceFiles sourceFiles
      (stripTrailing (basenameExt testFile options.fileExtension) options.testFileSuffix)
      options.fileExtension).find?
        (dirMatchPred options
          ((dirnameSegs (relativeSegs options.testRoot testFile)).headD "")
          (sepJoin ((dirnameSegs (relativeSegs options.testRoot testFile)).drop 1)))
      = none) :
    (analyzeTestFile sourceFiles options testFile).errors
      = [⟨.InvalidDirectoryStructure,
          "Multiple matching source files found ("
            ++ toString (findMatchingSourceFiles sourceFiles
              (stripTrailing (basenameExt testFile options.fileExtension)
                options.testFileSuffix) options.fileExtension).length
            ++ "). Unable to determine correct source file",
          some (commaJoin ((findMatchingSourceFiles sourceFiles
            (stripTrailing (basenameExt testFile options.fileExtension)
              options.testFileSuffix) options.fileExtension).map renderPath)),
          some (renderPath testFile), none⟩] :=
  analyzeTestFile_multi_unresolved_eq sourceFiles options testFile hlen hfind

/-- C7 witness: the amended unresolved-multiple-match behavior at a
concrete input with two candidates. -/
theorem C7_witness :
    (findMatchingSourceFiles [["r", "src", "A", "H.cs"], ["r", "src", "B", "H.cs"]]
      (stripTrailing (basenameExt ["r", "tests", "C.Tests", "HTests.cs"]
        optsDefault.fileExtension) optsDefault.testFileSuffix)
      optsDefault.fileExtension).length > 1
    ∧ (analyzeTestFile [["r", "src", "A", "H.cs"], ["r", "src", "B", "H.cs"]] optsDefault
        ["r", "tests", "C.Tests", "HTests.cs"]).errors
      = [⟨.InvalidDirectoryStructure,
          "Multiple matching source files found (2). Unable to determine correct source file",
          some "/r/src/A/H.cs, /r/src/B/H.cs",
          some "/r/tests/C.Tests/HTests.cs", none⟩] :=
  ⟨by decide, C7_amended_multi_unresolved
    [["r", "src", "A", "H.cs"], ["r", "src", "B", "H.cs"]] optsDefault
    ["r", "tests", "C.Tests", "HTests.cs"] (by decide) (by decide)⟩

/-- C10: on a concrete input where the test file's suffix-stripped base
name differs from the source file's base name only in letter case, the
Path Matcher matches them (so no "Source file not found" finding is
produced), while the missing-test sweep, whose lookup is case-sensitive,
still emits a `MissingTest` result for that source file. -/
theorem C10_case_sensitivity_mismatch :
    findMatchingSourceFiles [["r", "src", "App", "UserService.cs"]] "userservice" ".cs"
      = [["r", "src", "App", "UserService.cs"]]
    ∧ stripTrailing (basenameExt ["r", "tests", "App.Tests", "userserviceTests.cs"]
        optsDefault.fileExtension) optsDefault.testFileSuffix = "userservice"
    ∧ ((analyzeProject [["r", "src", "App", "UserService.cs"]]
        [["r", "tests", "App.Tests", "userserviceTests.cs"]] optsDefault).results.all
        (fun r => r.errors.all
          (fun e => !(e.message == "Source file not found: userservice.cs")))) = true
    ∧ ((analyzeProject [["r", "src", "App", "UserService.cs"]]
        [["r", "tests", "App.Tests", "userserviceTests.cs"]] optsDefault).results.any
        (fun r => r.errors.any
          (fun e => (e.type == .MissingTest)
            && (e.message == "Missing test file for source file: /r/src/App/UserService.cs"))))
      = true := by
  decide

theorem removeFirstOcc_nil_pat (l : List Char) : removeFirstOcc [] l = l := by
  induction l with
  | nil => rfl
  | cons c rest ih =>
    unfold removeFirstOcc
    rw [if_neg (by simp [List.isEmpty])]
    rw [ih]

theorem extRev_isPre (l : List Char) :
    ∀ r, extRev l = some r → ∃ t, r ++ t = l := by
  induction l with
  | nil => intro r h; exact absurd h (by simp [extRev])
  | cons c rest ih =>
    intro r h
    unfold extRev at h
    by_cases hc : c = '.'
    · rw [if_pos hc] at h
      injection h with h
      subst h
      exact ⟨rest, by rw [hc]; rfl⟩
    · rw [if_neg hc] at h
      cases hrev : extRev rest with
      | none => rw [hrev] at h; exact absurd h (by simp)
      | some t =>
        rw [hrev] at h
        simp only [Option.map_some', Option.some.injEq] at h
        obtain ⟨u, hu⟩ := ih t hrev
        exact ⟨u, by rw [← h]; simpa using congrArg (c :: ·) hu⟩

theorem extnameData_suffix (l : List Char) : ∃ a, l = a ++ extnameData l := by
  unfold extnameData
  cases hrev : extRev l.reverse with
  | none => exact ⟨l, by simp⟩
  | some r =>
    show ∃ a, l = a ++ (if r.length < l.length then r.reverse else [])
    by_cases hlen : r.length < l.length
    · rw [if_pos hlen]
      obtain ⟨t, ht⟩ := extRev_isPre l.reverse r hrev
      refine ⟨t.reverse, ?_⟩
      have : (r ++ t).reverse = l := by rw [ht]; simp
      rw [← this]
      simp
    · rw [if_neg hlen]
      exact ⟨l, by simp⟩

theorem specBaseName_append_extname (name : String) :
    specBaseName name ++ extname name = name := by
  obtain ⟨a, ha⟩ := extnameData_suffix name.data
  apply String.ext
  rw [strData_append]
  show name.data.take (name.data.length - (extname name).data.length)
      ++ (extname name).data = name.data
  have hed : (extname name).data = extnameData name.data := rfl
  rw [hed]
  generalize hE : extnameData name.data = E
  rw [hE] at ha
  rw [ha]
  have hlen : (a ++ E).length - E.length = a.length := by simp [List.length_append]
  rw [hlen, List.take_left]

theorem replaceFirst_extname (name : String)
    (h : extname name = "" ∨ occursOnlyTrailing name.data (extname name).data) :
    replaceFirst name (extname name) = specBaseName name := by
  rcases h with h | h
  · rw [h]
    unfold replaceFirst
    have : ("" : String).data = [] := rfl
    rw [this, removeFirstOcc_nil_pat, strMk_data]
    apply String.ext
    show name.data = name.data.take (name.data.length - (extname name).data.length)
    rw [h]
    simp
  · have h1 : replaceFirst name (extname name)
        = replaceFirst (specBaseName name ++ extname name) (extname name) := by
      rw [specBaseName_append_extname]
    rw [h1]
    exact replaceFirst_of_trailing _ _
      (by rw [specBaseName_append_extname name]; exact h)

/-- C1 counterexample: for the source file `A.csX.cs`, whose extension
`.cs` also occurs earlier in the name, `calculateExpectedTestPath` does
not produce the spec's `baseName + testFileSuffix + extension` file name:
JavaScript `replace` removes the first occurrence of the extension, giving
`AX.csTests.cs` instead of `A.csXTests.cs`. -/
theorem C1_counterexample :
    calculateExpectedTestPath ["r", "src", "App", "A.csX.cs"] optsDefault
      ≠ optsDefault.testRoot ++ ["App" ++ optsDefault.testProjectSuffix]
        ++ [specTestFileName "A.csX.cs" optsDefault.testFileSuffix]
    ∧ calculateExpectedTestPath ["r", "src", "App", "A.csX.cs"] optsDefault
      = ["r", "tests", "App.Tests", "AX.csTests.cs"]
    ∧ specTestFileName "A.csX.cs" optsDefault.testFileSuffix = "A.csXTests.cs" := by
  decide

/-- C1 amended: for every source file under `srcRoot` with a project
directory as first segment whose file name contains its extension only as
the trailing suffix (or has no extension), `calculateExpectedTestPath`
returns exactly `join(testRoot, project + testProjectSuffix, middle
segments, baseName + testFileSuffix + extension)`; the function is a total
computable definition, hence pure and filesystem-free. -/
theorem C1_amended_expected_path (options : AnalyzerOptions) (proj : String)
    (mid : List String) (name : String) (p : FsPath)
    (hp : p = options.srcRoot ++ (proj :: (mid ++ [name])))
    (hext : extname name = "" ∨ occursOnlyTrailing name.data (extname name).data) :
    calculateExpectedTestPath p options
      = options.testRoot ++ [proj ++ options.testProjectSuffix] ++ mid
        ++ [specTestFileName name options.testFileSuffix] := by
  subst hp
  simp only [calculateExpectedTestPath]
  rw [relativeSegs_append]
  have hbase : basename (options.srcRoot ++ (proj :: (mid ++ [name]))) = name := by
    unfold basename
    have hshape : options.srcRoot ++ (proj :: (mid ++ [name]))
        = (options.srcRoot ++ proj :: mid) ++ [name] := by
      simp
    rw [hshape, List.getLast?_concat]
    rfl
  rw [hbase]
  have hhead : (proj :: (mid ++ [name])).headD "" = proj := rfl
  have hdrop : (proj :: (mid ++ [name])).drop 1 = mid ++ [name] := rfl
  rw [hhead, hdrop, List.dropLast_concat]
  rw [replaceFirst_extname name hext]
  rfl

/-- C1 witness: the amended expected-path formula at a concrete
well-behaved source file. -/
theorem C1_witness :
    ((["r", "src", "App", "Handler.cs"] : FsPath)
        = optsDefault.srcRoot ++ ("App" :: (([] : List String) ++ ["Handler.cs"]))
      ∧ (extname "Handler.cs" = ""
        ∨ occursOnlyTrailing "Handler.cs".data (extname "Handler.cs").data))
    ∧ calculateExpectedTestPath ["r", "src", "App", "Handler.cs"] optsDefault
      = optsDefault.testRoot ++ ["App" ++ optsDefault.testProjectSuffix] ++ []
        ++ [specTestFileName "Handler.cs" optsDefault.testFileSuffix] :=
  ⟨⟨by decide, by decide⟩,
    C1_amended_expected_path optsDefault "App" [] "Handler.cs"
      ["r", "src", "App", "Handler.cs"] (by decide) (by decide)⟩

/-- C3 counterexample: with candidates `src/Other/Deep/Sub/Handler.cs` and
`src/App/Sub/Handler.cs` for test `tests/App.Tests/Sub/HandlerTests.cs`,
the claim's last-segment rule selects the first candidate (leaf folder
`Sub` matches), and proceeding as the single-match case with it would emit
a finding; the analyzer instead resolves by full project-and-subpath
comparison, picks the second candidate, and emits nothing. -/
theorem C3_counterexample :
    (findMatchingSourceFiles
        [["r", "src", "Other", "Deep", "Sub", "Handler.cs"],
          ["r", "src", "App", "Sub", "Handler.cs"]]
        (stripTrailing (basenameExt ["r", "tests", "App.Tests", "Sub", "HandlerTests.cs"]
          optsDefault.fileExtension) optsDefault.testFileSuffix)
        optsDefault.fileExtension).length > 1
    ∧ specSelectByLastSegment optsDefault ["r", "tests", "App.Tests", "Sub", "HandlerTests.cs"]
        (findMatchingSourceFiles
          [["r", "src", "Other", "Deep", "Sub", "Handler.cs"],
            ["r", "src", "App", "Sub", "Handler.cs"]]
          (stripTrailing (basenameExt ["r", "tests", "App.Tests", "Sub", "HandlerTests.cs"]
            optsDefault.fileExtension) optsDefault.testFileSuffix)
          optsDefault.fileExtension)
      = some ["r", "src", "Other", "Deep", "Sub", "Handler.cs"]
    ∧ compareWithExpected ["r", "src", "Other", "Deep", "Sub", "Handler.cs"] optsDefault
        ["r", "tests", "App.Tests", "Sub", "HandlerTests.cs"] ≠ []
    ∧ (analyzeTestFile
        [["r", "src", "Other", "Deep", "Sub", "Handler.cs"],
          ["r", "src", "App", "Sub", "Handler.cs"]]
        optsDefault ["r", "tests", "App.Tests", "Sub", "HandlerTests.cs"]).errors = [] := by
  decide

/-- C3 amended: in the multiple-match branch the analyzer selects the
first candidate, in input order, whose project directory segment equals
the test project segment with the first occurrence of `testProjectSuffix`
removed and whose remaining directory sub-path equals the test file's
remaining sub-path exactly (case-sensitively); it then proceeds exactly as
the single-match case with that candidate. -/
theorem C3_amended_tie_break (sourceFiles : List FsPath) (options : AnalyzerOptions)
    (testFile c : FsPath)
    (hlen : (findMatchingSourceFiles sourceFiles
      (stripTrailing (basenameExt testFile options.fileExtension) options.testFileSuffix)
      options.fileExtension).length > 1)
    (hfind : (findMatchingSourceFiles sourceFiles
      (stripTrailing (basenameExt testFile options.fileExtension) options.testFileSuffix)
      options.fileExtension).find?
        (dirMatchPred options
          ((dirnameSegs (relativeSegs options.testRoot testFile)).headD "")
          (sepJoin ((dirnameSegs (relativeSegs options.testRoot testFile)).drop 1)))
      = some c) :
    c ∈ findMatchingSourceFiles sourceFiles
      (stripTrailing (basenameExt testFile options.fileExtension) options.testFileSuffix)
      options.fileExtension
    ∧ dirMatchPred options
        ((dirnameSegs (relativeSegs options.testRoot testFile)).headD "")
        (sepJoin ((dirnameSegs (relativeSegs options.testRoot testFile)).drop 1)) c = true
    ∧ (analyzeTestFile sourceFiles options testFile).errors
      = compareWithExpected c options testFile :=
  ⟨List.mem_of_find?_eq_some hfind, List.find?_some hfind,
    analyzeTestFile_multi_resolved_eq sourceFiles options testFile c hlen hfind⟩

/-- C3 witness: the amended tie-break at the counterexample input, where
the analyzer resolves to `src/App/Sub/Handler.cs` and proceeds as the
single-match case with it. -/
theorem C3_witness :
    (findMatchingSourceFiles
        [["r", "src", "Other", "Deep", "Sub", "Handler.cs"],
          ["r", "src", "App", "Sub", "Handler.cs"]]
        (stripTrailing (basenameExt ["r", "tests", "App.Tests", "Sub", "HandlerTests.cs"]
          optsDefault.fileExtension) optsDefault.testFileSuffix)
        optsDefault.fileExtension).length > 1
    ∧ (analyzeTestFile
        [["r", "src", "Other", "Deep", "Sub", "Handler.cs"],
          ["r", "src", "App", "Sub", "Handler.cs"]]
        optsDefault ["r", "tests", "App.Tests", "Sub", "HandlerTests.cs"]).errors
      = compareWithExpected ["r", "src", "App", "Sub", "Handler.cs"] optsDefault
          ["r", "tests", "App.Tests", "Sub", "HandlerTests.cs"] :=
  ⟨by decide,
    (C3_amended_tie_break
      [["r", "src", "Other", "Deep", "Sub", "Handler.cs"],
        ["r", "src", "App", "Sub", "Handler.cs"]]
      optsDefault ["r", "tests", "App.Tests", "Sub", "HandlerTests.cs"]
      ["r", "src", "App", "Sub", "Handler.cs"] (by decide) (by decide)).2.2⟩

theorem append_ne_empty_left (a b : String) (ha : a ≠ "") : a ++ b ≠ "" := by
  intro h
  apply strData_ne_nil a ha
  have := congrArg String.data h
  rw [strData_append] at this
  exact List.append_eq_nil.mp this |>.1

theorem basename_concat_shape (A : FsPath) (x : String) (l : List String) (a : String) :
    basename (A ++ (x :: (l ++ [a]))) = a := by
  unfold basename
  have hshape : A ++ (x :: (l ++ [a])) = (A ++ x :: l) ++ [a] := by simp
  rw [hshape, List.getLast?_concat]
  rfl

theorem dirnameSegs_cons_concat (x : String) (l : List String) (a : String) :
    dirnameSegs (x :: (l ++ [a])) = x :: l := by
  unfold dirnameSegs
  rw [if_neg (by simp [List.length_append])]
  rw [← List.cons_append, List.dropLast_concat]

/-- Expected test path of a source file `srcRoot/proj/mid/name` whose name
is `base + extension` with a well-behaved extension: the test-root path
`testRoot/proj+testProjectSuffix/mid/base+testFileSuffix+extension`. -/
theorem calcExpected_eq (options : AnalyzerOptions) (proj : String) (mid : List String)
    (name base e₀ : String)
    (hextf : options.fileExtension = "." ++ e₀) (he0 : e₀ ≠ "") (hdot : '.' ∉ e₀.data)
    (hname : name = base ++ options.fileExtension) (hbase : base ≠ "")
    (hocc : occursOnlyTrailing name.data options.fileExtension.data) :
    calculateExpectedTestPath (options.srcRoot ++ (proj :: (mid ++ [name]))) options
      = options.testRoot ++ ((proj ++ options.testProjectSuffix)
          :: (mid ++ [base ++ options.testFileSuffix ++ options.fileExtension])) := by
  have hed : options.fileExtension.data = '.' :: e₀.data := by
    rw [hextf]; rfl
  have hext : extname name = options.fileExtension := by
    rw [hname]
    exact extname_of_append base options.fileExtension e₀.data hbase hed hdot
  have hrf : replaceFirst name (extname name) = base := by
    rw [hext, hname]
    apply replaceFirst_of_trailing
    rw [← hname]
    exact hocc
  simp only [calculateExpectedTestPath]
  rw [relativeSegs_append]
  have hbase' : basename (options.srcRoot ++ (proj :: (mid ++ [name]))) = name :=
    basename_concat_shape options.srcRoot proj mid name
  rw [hbase']
  have hhead : (proj :: (mid ++ [name])).headD "" = proj := rfl
  have hdrop : (proj :: (mid ++ [name])).drop 1 = mid ++ [name] := rfl
  rw [hhead, hdrop, List.dropLast_concat, hrf, hext]
  simp

/-- The test-file name of such an expected test path strips back to `base`:
`basename`, own-extension strip, then `testFileSuffix` strip. -/
theorem sourceFileName_of_t (options : AnalyzerOptions) (x : String) (mid : List String)
    (base e₀ : String)
    (hextf : options.fileExtension = "." ++ e₀) (he0 : e₀ ≠ "") (hdot : '.' ∉ e₀.data)
    (hbase : base ≠ "") :
    stripTrailing
      (basenameExt (options.testRoot
        ++ (x :: (mid ++ [base ++ options.testFileSuffix ++ options.fileExtension])))
        options.fileExtension)
      options.testFileSuffix = base := by
  have hbn := basename_concat_shape options.testRoot x mid
    (base ++ options.testFileSuffix ++ options.fileExtension)
  unfold basenameExt
  rw [hbn]
  rw [basenameStr_append (base ++ options.testFileSuffix) options.fileExtension
    (append_ne_empty_left base options.testFileSuffix hbase)]
  exact stripTrailing_append base options.testFileSuffix

/-- The missing-test sweep's key for such an expected test path is also
`base` (the sweep strips the file's own extension). -/
theorem strippedTestBase_of_t (options : AnalyzerOptions) (x : String) (mid : List String)
    (base e₀ : String)
    (hextf : options.fileExtension = "." ++ e₀) (he0 : e₀ ≠ "") (hdot : '.' ∉ e₀.data)
    (hbase : base ≠ "") :
    strippedTestBase options (options.testRoot
        ++ (x :: (mid ++ [base ++ options.testFileSuffix ++ options.fileExtension])))
      = base := by
  have hbn := basename_concat_shape options.testRoot x mid
    (base ++ options.testFileSuffix ++ options.fileExtension)
  unfold strippedTestBase basenameExt
  rw [hbn]
  have hed : options.fileExtension.data = '.' :: e₀.data := by
    rw [hextf]; rfl
  have hext : extname (base ++ options.testFileSuffix ++ options.fileExtension)
      = options.fileExtension :=
    extname_of_append (base ++ options.testFileSuffix) options.fileExtension e₀.data
      (append_ne_empty_left base options.testFileSuffix hbase) hed hdot
  rw [hext]
  rw [basenameStr_append (base ++ options.testFileSuffix) options.fileExtension
    (append_ne_empty_left base options.testFileSuffix hbase)]
  exact stripTrailing_append base options.testFileSuffix

/-- The sweep's key for the source file `base + extension` itself. -/
theorem sourceBase_of_p (options : AnalyzerOptions) (A : FsPath) (x : String)
    (mid : List String) (name base e₀ : String)
    (hextf : options.fileExtension = "." ++ e₀) (he0 : e₀ ≠ "") (hdot : '.' ∉ e₀.data)
    (hname : name = base ++ options.fileExtension) (hbase : base ≠ "") :
    sourceBase (A ++ (x :: (mid ++ [name]))) = base := by
  unfold sourceBase basenameExt
  rw [basename_concat_shape A x mid name]
  have hed : options.fileExtension.data = '.' :: e₀.data := by
    rw [hextf]; rfl
  have hext : extname name = options.fileExtension := by
    rw [hname]
    exact extname_of_append base options.fileExtension e₀.data hbase hed hdot
  rw [hext, hname]
  exact basenameStr_append base options.fileExtension hbase

theorem compareWithExpected_mentions (c p t : FsPath) (options : AnalyzerOptions)
    (hwc : wfPath c) (hwp : wfPath p)
    (hcpt : c = p → t = calculateExpectedTestPath c options) :
    ∀ e ∈ compareWithExpected c options t, errorMentionsPath e p = false := by
  intro e he
  simp only [compareWithExpected] at he
  by_cases heq : t = calculateExpectedTestPath c options
  · rw [if_pos heq] at he
    exact absurd he (List.not_mem_nil e)
  · have hne : c ≠ p := fun hcp => heq (hcpt hcp)
    rw [if_neg heq] at he
    by_cases hdir : t.dropLast = (calculateExpectedTestPath c options).dropLast
    · rw [if_pos hdir] at he
      rcases List.mem_singleton.mp he with rfl
      exact errorMentionsPath_single _ c p rfl hwc hwp hne
    · rw [if_neg hdir] at he
      rcases List.mem_singleton.mp he with rfl
      exact errorMentionsPath_single _ c p rfl hwc hwp hne

theorem compareWithExpected_no_missing (c : FsPath) (options : AnalyzerOptions)
    (t : FsPath) :
    ∀ e ∈ compareWithExpected c options t, e.type ≠ .MissingTest := by
  intro e he
  simp only [compareWithExpected] at he
  by_cases heq : t = calculateExpectedTestPath c options
  · rw [if_pos heq] at he
    exact absurd he (List.not_mem_nil e)
  · rw [if_neg heq] at he
    by_cases hdir : t.dropLast = (calculateExpectedTestPath c options).dropLast
    · rw [if_pos hdir] at he
      rcases List.mem_singleton.mp he with rfl
      simp
    · rw [if_neg hdir] at he
      rcases List.mem_singleton.mp he with rfl
      simp

theorem analyzeTestFile_no_missing (sourceFiles : List FsPath)
    (options : AnalyzerOptions) (testFile : FsPath) :
    ∀ e ∈ (analyzeTestFile sourceFiles options testFile).errors,
      e.type ≠ .MissingTest := by
  intro e he
  simp only [analyzeTestFile] at he
  split at he
  · rcases List.mem_singleton.mp he with rfl
    simp
  · split at he
    · split at he
      · exact compareWithExpected_no_missing _ options testFile e he
      · rcases List.mem_singleton.mp he with rfl
        simp
    · exact compareWithExpected_no_missing _ options testFile e he

/-- Processing the expected test path of a well-behaved source file `p`
never produces a finding that refers to `p`: the single-match case matches
exactly, the multiple-match tie-break always accepts `p` (so the
unresolved comma-joined finding cannot arise), and any finding produced
for a different accepted candidate refers to that candidate only. -/
theorem analyzeTestFile_of_roundtrip (sourceFiles : List FsPath)
    (options : AnalyzerOptions) (proj : String) (mid : List String)
    (name base e₀ : String) (p t : FsPath)
    (hwfS : ∀ q ∈ sourceFiles, wfPath q)
    (hp : p = options.srcRoot ++ (proj :: (mid ++ [name])))
    (hmem : p ∈ sourceFiles)
    (hextf : options.fileExtension = "." ++ e₀) (he0 : e₀ ≠ "") (hdot : '.' ∉ e₀.data)
    (hname : name = base ++ options.fileExtension) (hbase : base ≠ "")
    (hnameocc : occursOnlyTrailing name.data options.fileExtension.data)
    (hproj : occursOnlyTrailing (proj ++ options.testProjectSuffix).data
      options.testProjectSuffix.data)
    (ht : t = calculateExpectedTestPath p options) :
    ∀ e ∈ (analyzeTestFile sourceFiles options t).errors,
      errorMentionsPath e p = false := by
  have hcalc : calculateExpectedTestPath p options
      = options.testRoot ++ ((proj ++ options.testProjectSuffix)
        :: (mid ++ [base ++ options.testFileSuffix ++ options.fileExtension])) := by
    rw [hp]
    exact calcExpected_eq options proj mid name base e₀ hextf he0 hdot hname hbase hnameocc
  have htshape : t = options.testRoot ++ ((proj ++ options.testProjectSuffix)
      :: (mid ++ [base ++ options.testFileSuffix ++ options.fileExtension])) := by
    rw [ht, hcalc]
  have hsfn : stripTrailing (basenameExt t options.fileExtension)
      options.testFileSuffix = base := by
    rw [htshape]
    exact sourceFileName_of_t options _ mid base e₀ hextf he0 hdot hbase
  have hbn_p : basenameExt p options.fileExtension = base := by
    unfold basenameExt
    rw [hp, basename_concat_shape, hname]
    exact basenameStr_append base _ hbase
  have hpm : p ∈ findMatchingSourceFiles sourceFiles base options.fileExtension := by
    apply List.mem_filter.mpr
    refine ⟨hmem, ?_⟩
    rw [hbn_p]
    exact beq_self_eq_true _
  have hms_eq : findMatchingSourceFiles sourceFiles
      (stripTrailing (basenameExt t options.fileExtension) options.testFileSuffix)
      options.fileExtension
      = findMatchingSourceFiles sourceFiles base options.fileExtension := by
    rw [hsfn]
  have hpredp : dirMatchPred options
      ((dirnameSegs (relativeSegs options.testRoot t)).headD "")
      (sepJoin ((dirnameSegs (relativeSegs options.testRoot t)).drop 1)) p = true := by
    rw [htshape, relativeSegs_append, dirnameSegs_cons_concat]
    simp only [dirMatchPred]
    rw [hp, relativeSegs_append, dirnameSegs_cons_concat]
    have hrepl : replaceFirst
        (((proj ++ options.testProjectSuffix) :: mid).headD "")
        options.testProjectSuffix = proj := by
      show replaceFirst (proj ++ options.testProjectSuffix) options.testProjectSuffix = proj
      exact replaceFirst_of_trailing proj options.testProjectSuffix hproj
    rw [hrepl]
    have hh : (proj :: mid).headD "" = proj := rfl
    have hd1 : (proj :: mid).drop 1 = mid := rfl
    have hd2 : (((proj ++ options.testProjectSuffix)) :: mid).drop 1 = mid := rfl
    rw [hh, hd1, hd2]
    simp
  rcases hms : findMatchingSourceFiles sourceFiles base options.fileExtension
      with _ | ⟨c, rest⟩
  · rw [hms] at hpm
    exact absurd hpm (List.not_mem_nil p)
  · rcases rest with _ | ⟨c2, rest2⟩
    · have hcp : c = p := by
        rw [hms] at hpm
        exact (List.mem_singleton.mp hpm).symm
      have herr := analyzeTestFile_single_eq sourceFiles options t c
        (by rw [hms_eq, hms])
      intro e he
      rw [herr, hcp] at he
      simp only [compareWithExpected] at he
      rw [if_pos ht] at he
      exact absurd he (List.not_mem_nil e)
    · have hlen : (findMatchingSourceFiles sourceFiles
          (stripTrailing (basenameExt t options.fileExtension) options.testFileSuffix)
          options.fileExtension).length > 1 := by
        rw [hms_eq, hms]
        simp
      have hfindSome : ((findMatchingSourceFiles sourceFiles
          (stripTrailing (basenameExt t options.fileExtension) options.testFileSuffix)
          options.fileExtension).find?
          (dirMatchPred options
            ((dirnameSegs (relativeSegs options.testRoot t)).headD "")
            (sepJoin ((dirnameSegs (relativeSegs options.testRoot t)).drop 1)))).isSome := by
        rw [hms_eq]
        exact List.find?_isSome.mpr ⟨p, hpm, hpredp⟩
      obtain ⟨c', hc'⟩ := Option.isSome_iff_exists.mp hfindSome
      have herr := analyzeTestFile_multi_resolved_eq sourceFiles options t c' hlen hc'
      intro e he
      rw [herr] at he
      have hc'mem : c' ∈ sourceFiles := by
        have hmemMatch := List.mem_of_find?_eq_some hc'
        rw [hms_eq] at hmemMatch
        exact (List.mem_filter.mp hmemMatch).1
      exact compareWithExpected_mentions c' p t options (hwfS c' hc'mem) (hwfS p hmem)
        (fun hcp => by rw [hcp, ← ht]) e he

/-- C2 amended: the naming-convention round trip holds for well-formed
inputs whose project name does not contain `testProjectSuffix` except as
produced by appending it, and whose file name contains its extension only
trailing: if the test file list contains exactly
`calculateExpectedTestPath p options` for a source file `p`, then no
result for that test file carries a finding referring to `p` (as a
comma-separated component of `sourceFilePath`), and no `MissingTest`
result for `p` is produced anywhere in the output. -/
theorem C2_amended_round_trip (sourceFiles testFiles : List FsPath)
    (options : AnalyzerOptions) (proj : String) (mid : List String)
    (name base e₀ : String) (p t : FsPath)
    (hwfS : ∀ q ∈ sourceFiles, wfPath q)
    (hp : p = options.srcRoot ++ (proj :: (mid ++ [name])))
    (hmem : p ∈ sourceFiles)
    (hextf : options.fileExtension = "." ++ e₀) (he0 : e₀ ≠ "") (hdot : '.' ∉ e₀.data)
    (hname : name = base ++ options.fileExtension) (hbase : base ≠ "")
    (hnameocc : occursOnlyTrailing name.data options.fileExtension.data)
    (hproj : occursOnlyTrailing (proj ++ options.testProjectSuffix).data
      options.testProjectSuffix.data)
    (ht : t = calculateExpectedTestPath p options)
    (htmem : t ∈ testFiles) :
    (∀ r ∈ (analyzeProject sourceFiles testFiles options).results,
      r.testFilePath = t → ∀ e ∈ r.errors, errorMentionsPath e p = false)
    ∧ (∀ r ∈ (analyzeProject sourceFiles testFiles options).results,
      ∀ e ∈ r.errors,
        ¬(e.type = AnalysisErrorType.MissingTest ∧ e.message = missingMsg p)) := by
  have hdecomp : ∀ r ∈ (analyzeProject sourceFiles testFiles options).results,
      (∃ u ∈ testFiles, r = analyzeTestFile sourceFiles options u)
      ∨ (∃ s ∈ sourceFiles,
          (lookupAssoc (buildTestMap testFiles options) (sourceBase s)).isNone = true
          ∧ r = mkMissingResult options s) := by
    intro r hr
    unfold analyzeProject at hr
    simp only at hr
    have hr1 := (List.mem_filter.mp hr).1
    rcases List.mem_append.mp hr1 with h | h
    · have h2 := (List.mem_filter.mp h).1
      obtain ⟨u, hu, hru⟩ := List.mem_map.mp h2
      exact Or.inl ⟨u, hu, hru.symm⟩
    · by_cases hv : options.validateMissingTests
      · rw [if_pos hv, analyzeMissingTests_eq] at h
        obtain ⟨s, hs, hrs⟩ := List.mem_map.mp h
        have hs1 := List.mem_filter.mp hs
        exact Or.inr ⟨s, hs1.1, hs1.2, hrs.symm⟩
      · rw [if_neg hv] at h
        exact absurd h (List.not_mem_nil r)
  have hkey : (lookupAssoc (buildTestMap testFiles options) (sourceBase p)).isSome := by
    rw [lookup_buildTestMap_isSome]
    have hsb : sourceBase p = base := by
      rw [hp]
      exact sourceBase_of_p options _ proj mid name base e₀ hextf he0 hdot hname hbase
    have hst : strippedTestBase options t = base := by
      rw [ht, hp,
        calcExpected_eq options proj mid name base e₀ hextf he0 hdot hname hbase hnameocc]
      exact strippedTestBase_of_t options _ mid base e₀ hextf he0 hdot hbase
    rw [hsb, ← hst]
    exact List.mem_map_of_mem (strippedTestBase options) htmem
  constructor
  · intro r hr hrt e he
    rcases hdecomp r hr with ⟨u, hu, rfl⟩ | ⟨s, hs, hnone, rfl⟩
    · have hut : u = t := hrt
      subst hut
      exact analyzeTestFile_of_roundtrip sourceFiles options proj mid name base e₀ p u
        hwfS hp hmem hextf he0 hdot hname hbase hnameocc hproj ht e he
    · have hme : e ∈ (mkMissingResult options s).errors := he
      simp only [mkMissingResult] at hme
      rcases List.mem_singleton.mp hme with rfl
      rfl
  · intro r hr e he
    rcases hdecomp r hr with ⟨u, hu, rfl⟩ | ⟨s, hs, hnone, rfl⟩
    · rintro ⟨htype, _⟩
      exact analyzeTestFile_no_missing sourceFiles options u e he htype
    · rintro ⟨_, hmsg⟩
      have hme : e ∈ (mkMissingResult options s).errors := he
      simp only [mkMissingResult] at hme
      rcases List.mem_singleton.mp hme with rfl
      have hsp : s = p := by
        apply renderPath_inj s p (hwfS s hs) (hwfS p hmem)
        have hd := congrArg String.data hmsg
        simp only [missingMsg, strData_append] at hd
        exact String.ext (List.append_cancel_left hd)
      rw [hsp] at hnone
      rw [Option.isNone_iff_eq_none] at hnone
      rw [hnone] at hkey
      exact absurd hkey (by simp)

/-- C2 counterexample: for source `src/X.TestsY/Handler.cs` (project name
containing `.Tests` non-trailing) and a second candidate sharing the base
name, the test file placed exactly at the computed expected path still
receives a finding that refers to `p`: the tie-break mangles the project
name (`X.TestsY.Tests` → `XY.Tests`), fails to recognize `p`, and the
unresolved multiple-match finding comma-joins `p` into `sourceFilePath`. -/
theorem C2_counterexample :
    calculateExpectedTestPath ["r", "src", "X.TestsY", "Handler.cs"] optsDefault
      = ["r", "tests", "X.TestsY.Tests", "HandlerTests.cs"]
    ∧ ((analyzeProject
        [["r", "src", "X.TestsY", "Handler.cs"], ["r", "src", "Other", "Handler.cs"]]
        [["r", "tests", "X.TestsY.Tests", "HandlerTests.cs"]] optsDefault).results.any
        (fun r => (r.testFilePath == ["r", "tests", "X.TestsY.Tests", "HandlerTests.cs"])
          && r.errors.any
            (fun e => errorMentionsPath e ["r", "src", "X.TestsY", "Handler.cs"]))) = true := by
  decide

/-- C2 witness: the amended round trip at a concrete input with two
same-base-name candidates and a correctly placed test file, all
hypotheses discharged. -/
theorem C2_witness :
    ((["r", "src", "App", "Handler.cs"] : FsPath)
        = optsDefault.srcRoot ++ ("App" :: (([] : List String) ++ ["Handler.cs"]))
      ∧ (["r", "tests", "App.Tests", "HandlerTests.cs"] : FsPath)
        = calculateExpectedTestPath ["r", "src", "App", "Handler.cs"] optsDefault
      ∧ occursOnlyTrailing "Handler.cs".data ".cs".data
      ∧ occursOnlyTrailing ("App" ++ ".Tests").data ".Tests".data)
    ∧ ((∀ r ∈ (analyzeProject
          [["r", "src", "App", "Handler.cs"], ["r", "src", "Lib", "Handler.cs"]]
          [["r", "tests", "App.Tests", "HandlerTests.cs"]] optsDefault).results,
        r.testFilePath = ["r", "tests", "App.Tests", "HandlerTests.cs"] →
        ∀ e ∈ r.errors, errorMentionsPath e ["r", "src", "App", "Handler.cs"] = false)
      ∧ (∀ r ∈ (analyzeProject
          [["r", "src", "App", "Handler.cs"], ["r", "src", "Lib", "Handler.cs"]]
          [["r", "tests", "App.Tests", "HandlerTests.cs"]] optsDefault).results,
        ∀ e ∈ r.errors,
          ¬(e.type = AnalysisErrorType.MissingTest
            ∧ e.message = missingMsg ["r", "src", "App", "Handler.cs"]))) :=
  ⟨⟨by decide, by decide, by decide, by decide⟩,
    C2_amended_round_trip
      [["r", "src", "App", "Handler.cs"], ["r", "src", "Lib", "Handler.cs"]]
      [["r", "tests", "App.Tests", "HandlerTests.cs"]] optsDefault
      "App" [] "Handler.cs" "Handler" "cs"
      ["r", "src", "App", "Handler.cs"] ["r", "tests", "App.Tests", "HandlerTests.cs"]
      (by decide) (by decide) (by decide) (by decide) (by decide) (by decide)
      (by decide) (by decide) (by decide) (by decide) (by decide) (by decide)⟩
